import Mathlib

/-!
Shallow embedding of `ppo.py` (Carla-ppo): the PPO training/inference
engine with multiple sub-policies.  Real-valued network outputs that the
claims quantify over are modelled as rational per-sample lists; the
transcendental parts (Gaussian log-densities, tanh) are modelled over ℝ.
-/

namespace CarlaPPO

/-! ### Loss arithmetic (PPO._create_sub_policy, ppo.py lines 209-230) -/

/-- `tf.clip_by_value(t, lo, hi)`: `min(max(t, lo), hi)` elementwise. -/
def clipByValue (x lo hi : ℚ) : ℚ := min (max x lo) hi

/-- Per-sample clipped-surrogate term from ppo.py line 222:
`min(prob_ratio * adv, clip_by_value(prob_ratio, 1-eps, 1+eps) * adv)`. -/
def surrogate (eps r a : ℚ) : ℚ :=
  min (r * a) (clipByValue r (1 - eps) (1 + eps) * a)

/-- `tf.reduce_mean` over a batch vector (sum divided by length;
division by zero yields 0 for the empty batch, which the code never feeds). -/
def mean (l : List ℚ) : ℚ := l.sum / l.length

/-! ### Per-sub-policy batch data and scalar losses

Each sub-policy owns its own pair of networks; on a shared input batch it
produces per-sample outputs.  We take those per-sample network outputs
(`prob_ratio` from line 218, `value` from line 55, the per-sample
dimension-summed entropy from line 228) as the input data of the loss
pipeline, since the claims quantify over arbitrary batches. -/
structure SubPolicyBatch where
  probRatio : List ℚ
  value : List ℚ
  entropy : List ℚ

/-- The placeholders shared by all sub-policies (ppo.py lines 109-113). -/
structure SharedBatch where
  advantage : List ℚ
  returns : List ℚ
  active : List ℕ

/-- Scalar policy loss of one sub-policy on the full batch (line 222):
the mean is taken over *all* samples, with no masking. -/
def policyLossUnit (eps : ℚ) (u : SubPolicyBatch) (b : SharedBatch) : ℚ :=
  mean (List.zipWith (surrogate eps) u.probRatio b.advantage)

/-- Scalar value loss of one sub-policy (line 225):
`reduce_mean(squared_difference(value, returns)) * value_scale`. -/
def valueLossUnit (valueScale : ℚ) (u : SubPolicyBatch) (b : SharedBatch) : ℚ :=
  mean (List.zipWith (fun v r => (v - r) ^ 2) u.value b.returns) * valueScale

/-- Scalar entropy loss of one sub-policy (line 228). -/
def entropyLossUnit (entropyScale : ℚ) (u : SubPolicyBatch) : ℚ :=
  mean u.entropy * entropyScale

/-- Combined scalar loss of one sub-policy on the full unmasked batch,
mirroring line 147: `loss = -policy_loss + value_loss - entropy_loss`. -/
def unitLoss (eps vs es : ℚ) (u : SubPolicyBatch) (b : SharedBatch) : ℚ :=
  -policyLossUnit eps u b + valueLossUnit vs u b - entropyLossUnit es u

/-! ### Masked aggregation across sub-policies (ppo.py lines 116-147)

Line 126 builds `sub_policy_filter = self.active_sub_policy == sub_policy`,
comparing the `active_sub_policy` placeholder (a TF1 `Tensor` object)
against the Python int `sub_policy`.  TF 1.x does not overload
`Tensor.__eq__` elementwise (that is the TF 2.0 tensor-equality change):
the comparison is object identity and evaluates at graph-build time to the
Python constant `False`, which the multiplications of lines 127-134
convert to the scalar 0.0.  Each unit's "masked" losses are therefore the
scalar `loss * 0.0 = 0.0`, the axis-0 `reduce_sum` of lines 137-139 sums
N scalar zeros, and `self.loss` (line 147) is the scalar constant 0 —
despite the comments at lines 125 and 136, no per-sample indicator
masking takes place. -/

/-- Line 126: the sub-policy filter for unit `k`.  The placeholder object
is never identical to the int `k`, so the comparison is the constant
`False`: 0.0 once drawn into arithmetic. -/
def subPolicyFilter (_k : ℕ) : ℚ := 0

/-- Lines 127-129: one unit's "masked" scalar loss,
`scalar_loss * sub_policy_filter`. -/
def maskedLoss (s : ℚ) (k : ℕ) : ℚ := s * subPolicyFilter k

/-- Line 137, `tf.reduce_sum(policy_losses, axis=0)`: the masked scalar
policy losses of the enumerated units, summed. -/
def aggPolicyLoss (eps : ℚ) (units : List SubPolicyBatch) (b : SharedBatch) : ℚ :=
  (units.enum.map (fun p => maskedLoss (policyLossUnit eps p.2 b) p.1)).sum

/-- Line 138: aggregated value loss. -/
def aggValueLoss (vs : ℚ) (units : List SubPolicyBatch) (b : SharedBatch) : ℚ :=
  (units.enum.map (fun p => maskedLoss (valueLossUnit vs p.2 b) p.1)).sum

/-- Line 139: aggregated entropy loss. -/
def aggEntropyLoss (es : ℚ) (units : List SubPolicyBatch) : ℚ :=
  (units.enum.map (fun p => maskedLoss (entropyLossUnit es p.2) p.1)).sum

/-- Line 147: `loss = -policy_loss + value_loss - entropy_loss`, the
scalar the optimizer minimizes at line 159. -/
def aggLoss (eps vs es : ℚ) (units : List SubPolicyBatch) (b : SharedBatch) : ℚ :=
  -aggPolicyLoss eps units b + aggValueLoss vs units b - aggEntropyLoss es units

/-- A concrete sub-policy batch: unit 0 of the failing input. -/
def exUnit0 : SubPolicyBatch := ⟨[1, 1], [0, 0], [0, 0]⟩

/-- A concrete shared batch of two samples, both labelled sub-policy 0. -/
def exBatchAll : SharedBatch := ⟨[2, 4], [0, 0], [0, 0]⟩

/-! ### Counters (ppo.py lines 103-106, 257-319)

Modelled from the spec: `create_counter_variable` lives in `utils.py`,
which is not part of the provided sources; per the spec (§2, §3) a Counter
is "a persisted, monotonically-incrementable integer scalar" whose
`inc_op` adds exactly 1.  The call sites below are taken from ppo.py:
`train` runs `train_step_counter.inc_op` (line 269), `predict` runs
`predict_step_counter.inc_op` only under `write_to_summary` (lines
290-292), `write_episodic_summaries` runs `episode_counter.inc_op`
(line 319); no other operation touches a counter. -/
structure Counters where
  trainStep : ℕ
  predictStep : ℕ
  episode : ℕ
deriving DecidableEq

/-- The engine operations that run session ops (checkpoint restore, which
may overwrite counters wholesale from disk, is external restore and not an
increment point). -/
inductive PPOOp where
  | train
  | predictOp (writeToSummary : Bool)
  | writeEpisodicSummaries
  | updateOldPolicy
  | save
deriving DecidableEq

/-- Effect of each operation on the three counters, from the ppo.py call
sites cited above. -/
def stepCounters : PPOOp → Counters → Counters
  | .train, c => { c with trainStep := c.trainStep + 1 }
  | .predictOp w, c => if w then { c with predictStep := c.predictStep + 1 } else c
  | .writeEpisodicSummaries, c => { c with episode := c.episode + 1 }
  | .updateOldPolicy, c => c
  | .save, c => c

/-- Run a sequence of operations left to right. -/
def runOps (ops : List PPOOp) (c : Counters) : Counters :=
  ops.foldl (fun s o => stepCounters o s) c

/-! ### Checkpoint loading (PPO.load_latest_checkpoint, lines 247-255)

`tf.train.latest_checkpoint` is modelled as an optional checkpoint path;
`saver.restore` as a fallible action (`Except`, the raised exception being
the error value).  The Python function returns `True` after a successful
restore, `False` from the bare `except:` when restore raises, and — the
`if` having no `else` — falls off the end and returns `None` when no
checkpoint exists. -/
def load_latest_checkpoint (latest : Option String)
    (restore : String → Except String Unit) : Option Bool :=
  match latest with
  | some ckpt =>
    match restore ckpt with
    | .ok _ => some true
    | .error _ => some false
  | none => none

/-! ### PolicyGraph construction (PolicyGraph.__init__, lines 16-66)

The constructor reads `action_space.shape[0]`, `low` and `high` (line 38)
and builds the networks and the sampling distribution.  It contains no
validation of the action space: no code path inspects the bounds or the
dimensionality to raise an error (the only runtime check in the graph is
`validate_args=True` on the Normal distribution, which checks its scale
`exp(action_logstd) > 0`, a condition that holds for every real logstd).
The result is therefore always a successfully constructed graph. -/
structure ActionSpaceBox where
  low : List ℚ
  high : List ℚ

/-- The data of a constructed policy graph that the claims need. -/
structure PolicyGraphModel where
  numActions : ℕ
  actionMin : List ℚ
  actionMax : List ℚ

/-- `PolicyGraph.__init__`: `Except` is the error channel for a raised
configuration error; the body has no raise path, so it is always `.ok`. -/
def policyGraphInit (space : ActionSpaceBox) : Except String PolicyGraphModel :=
  .ok { numActions := space.low.length, actionMin := space.low, actionMax := space.high }

/-- The claim's notion of a degenerate action space: dimensionality ≤ 0,
or some lower-bound component ≥ the matching upper-bound component. -/
def degenerateActionSpace (space : ActionSpaceBox) : Bool :=
  space.low.isEmpty || (List.zip space.low space.high).any (fun p => p.2 ≤ p.1)

/-- A concrete restore action for the checkpoint-loading witness: restoring
the checkpoint named "bad" raises, every other restore succeeds. -/
def restoreEx (ckpt : String) : Except String Unit :=
  if ckpt = "bad" then .error "corrupt" else .ok ()

/-! ### predict input normalization (PPO.predict, lines 271-297)

`np.asarray` of a (well-formed) nested sequence is modelled as a nested
array of rationals; `len(x.shape)` is the nesting depth `ndim`, read off
the first element of each level as numpy does for rectangular data. -/
inductive NpArray where
  | scalar (x : ℚ)
  | arr (elems : List NpArray)

/-- `len(np.asarray(x).shape)`: the number of dimensions. -/
def ndim : NpArray → ℕ
  | .scalar _ => 0
  | .arr [] => 1
  | .arr (x :: _) => 1 + ndim x

/-- Lines 273-275: `if len(input_states.shape) != 2: input_states =
[input_states]` — wrap in a batch of one unless the array is exactly 2-d. -/
def normalizeInput (x : NpArray) : NpArray :=
  if ndim x ≠ 2 then .arr [x] else x

/-- The elements along axis 0 (`len(input_states)` is their count). -/
def firstAxis : NpArray → List NpArray
  | .scalar _ => []
  | .arr l => l

/-- The value `predict` returns (line 295-297): either one un-batched
(action, value) pair or batched arrays. -/
inductive PredictResult where
  | single (action value : ℚ)
  | batched (actions values : List ℚ)

/-- Whether the result is the un-batched single pair. -/
def PredictResult.isSingle : PredictResult → Bool
  | .single _ _ => true
  | .batched _ _ => false

/-- `PPO.predict` output logic, lines 271-297: normalize the input, run
the session on the batch (`sess.run` evaluates the per-sample graph
outputs in input order; modelled by per-row functions `f` for the action
and `g` for the value), and un-batch the output when `len(input_states)`
is 1. -/
def predict (f g : NpArray → ℚ) (x : NpArray) : PredictResult :=
  match firstAxis (normalizeInput x) with
  | [r] => .single (f r) (g r)
  | rows => .batched (rows.map f) (rows.map g)

/-- A concrete action function for the predict witnesses. -/
def fEx : NpArray → ℚ := fun _ => 5

/-- A concrete value function for the predict witnesses. -/
def gEx : NpArray → ℚ := fun _ => 7

/-- A concrete 1-d single-example input. -/
def exSingle : NpArray := .arr [.scalar 1]

/-- A concrete 2-d input of two rows. -/
def exRows : List NpArray := [.arr [.scalar 1], .arr [.scalar 2]]

/-- A concrete 4-d input: a batch of two 3-d images, the observation shape
the engine is constructed with. -/
def ex4DBatch : NpArray :=
  .arr [.arr [.arr [.arr [.scalar 0]]], .arr [.arr [.arr [.scalar 1]]]]

/-! ### Parameter scopes and updates (ppo.py lines 150-162, 321-322)

`tf.get_collection(TRAINABLE_VARIABLES, scope=...)` filters variables whose
names `re.match` the scope pattern (anchored at the start).  The two
patterns used are `policy_[0-9]+/` and `policy_old_[0-9]+/`.  Variables are
modelled as named rational scalars; `optimizer.minimize(loss,
var_list=policy_params)` (line 159) applies an update only to the
collected variables, abstracted as an arbitrary per-variable update
function; `update_op` (line 162) assigns `dst := src` over the positional
zip of the two collections. -/
structure TFVariable where
  name : String
  val : ℚ
deriving DecidableEq

/-- List-of-characters prefix test (for the anchored `re.match`). -/
def startsWithChars : List Char → List Char → Bool
  | [], _ => true
  | _ :: _, [] => false
  | p :: ps, c :: cs => if p = c then startsWithChars ps cs else false

/-- Zero or more digits followed by a `/` (the backtracking-free tail of
`[0-9]+/`). -/
def digitsThenSlashTail : List Char → Bool
  | [] => false
  | c :: cs => if c.isDigit then digitsThenSlashTail cs else c == '/'

/-- `[0-9]+/`: at least one digit, then (after the remaining digits) `/`. -/
def digitsThenSlash : List Char → Bool
  | [] => false
  | c :: cs => c.isDigit && digitsThenSlashTail cs

/-- `re.match("policy_[0-9]+/", name)` as a Boolean (line 150). -/
def matchesCurrentScope (name : String) : Bool :=
  startsWithChars "policy_".toList name.toList &&
    digitsThenSlash (name.toList.drop ("policy_".toList.length))

/-- `re.match("policy_old_[0-9]+/", name)` as a Boolean (line 151). -/
def matchesOldScope (name : String) : Bool :=
  startsWithChars "policy_old_".toList name.toList &&
    digitsThenSlash (name.toList.drop ("policy_old_".toList.length))

/-- The value of the variable named `n` in a store (TF variable names are
unique; the theorems carry that as a `Nodup` hypothesis). -/
def lookupVar (n : String) (store : List TFVariable) : Option ℚ :=
  (store.find? (fun v => v.name == n)).map (fun v => v.val)

/-- `tf.get_collection(TRAINABLE_VARIABLES, scope=p)`: the variables whose
names match the scope pattern, in creation order. -/
def getCollection (p : String → Bool) (store : List TFVariable) : List TFVariable :=
  store.filter (fun v => p v.name)

/-- Line 159: one optimizer step over `var_list = policy_params`; `g`
abstracts the Adam update applied to each collected variable. -/
def applyGradStep (g : String → ℚ → ℚ) (store : List TFVariable) : List TFVariable :=
  store.map (fun v =>
    if matchesCurrentScope v.name then ⟨v.name, g v.name v.val⟩ else v)

/-- Line 162: `tf.group([dst.assign(src) for src, dst in
zip(policy_params, policy_old_params)])` — each old variable is assigned
the value of the positionally paired current variable. -/
def updateOldPolicy (store : List TFVariable) : List TFVariable :=
  store.map (fun v =>
    match (List.zip (getCollection matchesOldScope store)
        (getCollection matchesCurrentScope store)).find?
        (fun p => p.1.name == v.name) with
    | some p => ⟨v.name, p.2.val⟩
    | none => v)

/-- A concrete two-variable store: one current and one old parameter. -/
def storeEx : List TFVariable := [⟨"policy_0/w", 1⟩, ⟨"policy_old_0/w", 5⟩]

/-- A concrete optimizer update for the witness. -/
def gradEx : String → ℚ → ℚ := fun _ x => x + 1

/-! ### Gaussian log-probability and the probability ratio
(PolicyGraph lines 58, 66; _create_sub_policy line 218)

The transcendental parts are over ℝ.  `tfp.distributions.Normal(loc,
scale).log_prob(x)` is the Gaussian log-density; line 66 sums it over the
action dimensions. -/

/-- Log-density of `Normal(mu, sigma)` at `x`:
`-(x-mu)^2/(2 sigma^2) - log(sigma*sqrt(2 pi))`. -/
noncomputable def gaussianLogPdf (mu sigma x : ℝ) : ℝ :=
  -((x - mu) ^ 2 / (2 * sigma ^ 2)) - Real.log (sigma * Real.sqrt (2 * Real.pi))

/-- The parameters of one PolicyGraph that determine its log-probability.
Modelled from the spec for the network part: `build_mlp` (utils.py, not
under src/) builds a deterministic feed-forward stack, so the
observation-to-action-mean map is a function carried by the parameters;
`action_logstd` is the learned per-dimension vector (line 48). -/
structure PolicyParams where
  meanNet : List ℝ → List ℝ
  logstd : List ℝ

/-- Line 66: `reduce_sum(action_normal.log_prob(taken_actions), axis=-1)`
for one sample: the per-dimension Gaussian log-densities (scale
`exp(logstd)`, line 58) summed over action dimensions. -/
noncomputable def actionLogProb (p : PolicyParams) (obs actions : List ℝ) : ℝ :=
  (List.zipWith (fun (ma : ℝ × ℝ) ls => gaussianLogPdf ma.1 (Real.exp ls) ma.2)
    (List.zip (p.meanNet obs) actions) p.logstd).sum

/-- Line 218: `prob_ratio = exp(current.log_prob - old.log_prob)` for one
sample. -/
noncomputable def probRatio (cur old : PolicyParams) (obs actions : List ℝ) : ℝ :=
  Real.exp (actionLogProb cur obs actions - actionLogProb old obs actions)

/-- The per-sample probability ratios over a batch of
(observation, taken-action) pairs, in batch order. -/
noncomputable def probRatioBatch (cur old : PolicyParams)
    (batch : List (List ℝ × List ℝ)) : List ℝ :=
  batch.map (fun sa => probRatio cur old sa.1 sa.2)

/-- Concrete policy parameters for the probability-ratio witness. -/
noncomputable def ppEx : PolicyParams := ⟨fun l => l, [0]⟩

/-! ### Action-mean rescaling (PolicyGraph lines 43-47)

The final dense layer of the mean tower has `tanh` activation, so each
component of its output is `tanh` of a real pre-activation; line 47
affinely rescales it:
`action_mean = action_min + ((action_mean + 1) / 2) * (action_max - action_min)`. -/

/-- One component of the rescaled action mean (line 47), as a function of
the pre-activation feeding the final `tanh`. -/
noncomputable def actionMeanComponent (lo hi pre : ℝ) : ℝ :=
  lo + ((Real.tanh pre + 1) / 2) * (hi - lo)

/-- The full rescaled action-mean vector over the per-dimension bounds and
pre-activations. -/
noncomputable def actionMeanVec (lows his pres : List ℝ) : List ℝ :=
  List.zipWith (fun (lh : ℝ × ℝ) pre => actionMeanComponent lh.1 lh.2 pre)
    (List.zip lows his) pres

end CarlaPPO

namespace CarlaPPO

/-- C2 claim: for a single sample with advantage > 0 the clipped surrogate
term never exceeds `(1+eps)*adv` for any `prob_ratio ≥ 0`, and the clipping
boundaries are attained exactly at `prob_ratio = 1-eps` and `1+eps`. -/
theorem surrogate_bounded_above (eps r a : ℚ) (heps : 0 ≤ eps)
    (ha : 0 < a) (hr : 0 ≤ r) :
    surrogate eps r a ≤ (1 + eps) * a ∧
    surrogate eps (1 - eps) a = (1 - eps) * a ∧
    surrogate eps (1 + eps) a = (1 + eps) * a := by
  refine ⟨?_, ?_, ?_⟩
  · have hclip : clipByValue r (1 - eps) (1 + eps) ≤ 1 + eps := min_le_right _ _
    have h2 : clipByValue r (1 - eps) (1 + eps) * a ≤ (1 + eps) * a :=
      mul_le_mul_of_nonneg_right hclip ha.le
    exact le_trans (min_le_right _ _) h2
  · have h1 : clipByValue (1 - eps) (1 - eps) (1 + eps) = 1 - eps := by
      unfold clipByValue
      rw [max_self]
      exact min_eq_left (by linarith)
    unfold surrogate
    rw [h1, min_self]
  · have h1 : clipByValue (1 + eps) (1 - eps) (1 + eps) = 1 + eps := by
      unfold clipByValue
      rw [max_eq_left (by linarith), min_self]
    unfold surrogate
    rw [h1, min_self]

/-- Witness for C2 at `eps = 1/5`, `r = 3`, `a = 2`. -/
theorem surrogate_bounded_above_witness :
    surrogate (1/5) 3 2 ≤ (1 + 1/5) * 2 ∧
    surrogate (1/5) (1 - 1/5) 2 = (1 - 1/5) * 2 ∧
    surrogate (1/5) (1 + 1/5) 2 = (1 + 1/5) * 2 :=
  surrogate_bounded_above (1/5) 3 2 (by norm_num) (by norm_num) (by norm_num)

end CarlaPPO

namespace CarlaPPO

theorem sum_map_zero {α : Type} (l : List α) (φ : α → ℚ)
    (h : ∀ a ∈ l, φ a = 0) : (l.map φ).sum = 0 := by
  induction l with
  | nil => rfl
  | cons x xs ih =>
    simp [h x (List.mem_cons_self x xs),
      ih (fun a ha => h a (List.mem_cons_of_mem x ha))]

/-- C1 (code bug): line 126 compares the `active_sub_policy` placeholder
to a Python int with TF1 `Tensor.__eq__` — an identity comparison that
yields the constant `False`, 0.0 in the arithmetic of lines 127-139 — so
every unit's masked loss terms and the aggregated loss are identically
zero, never the per-sample-masked values the claim (and the code's own
comments at lines 125 and 136) describe.  At the failing input, a
two-sample batch entirely on sub-policy 0, the aggregated loss is 0 while
SubPolicyUnit 0's loss on the full unmasked batch is -3, so the claimed
equality fails. -/
theorem maskedLoss_constant_zero :
    (∀ (eps vs es : ℚ) (units : List SubPolicyBatch) (b : SharedBatch),
      aggLoss eps vs es units b = 0) ∧
    aggLoss (1/4) 1 1 [exUnit0] exBatchAll = 0 ∧
    unitLoss (1/4) 1 1 exUnit0 exBatchAll = -3 ∧
    aggLoss (1/4) 1 1 [exUnit0] exBatchAll ≠ unitLoss (1/4) 1 1 exUnit0 exBatchAll := by
  have hzero : ∀ (eps vs es : ℚ) (units : List SubPolicyBatch) (b : SharedBatch),
      aggLoss eps vs es units b = 0 := by
    intro eps vs es units b
    unfold aggLoss aggPolicyLoss aggValueLoss aggEntropyLoss
    rw [sum_map_zero _ _ (fun p _ => by simp [maskedLoss, subPolicyFilter]),
      sum_map_zero _ _ (fun p _ => by simp [maskedLoss, subPolicyFilter]),
      sum_map_zero _ _ (fun p _ => by simp [maskedLoss, subPolicyFilter])]
    ring
  have hunit : unitLoss (1/4) 1 1 exUnit0 exBatchAll = -3 := by
    norm_num [unitLoss, policyLossUnit, valueLossUnit, entropyLossUnit, mean,
      surrogate, clipByValue, exUnit0, exBatchAll, min_def, max_def]
  refine ⟨hzero, hzero _ _ _ _ _, hunit, ?_⟩
  rw [hzero, hunit]
  norm_num

end CarlaPPO

namespace CarlaPPO

/-- C5: the three counters are independent and each increments by exactly 1
at its defined point: N `train()` calls add exactly N to the train-step
counter and leave the other two unchanged; `predict` increments the
predict-step counter only with `write_to_summary = True` and mutates no
counter otherwise; the episode counter increments only on
`write_episodic_summaries()`; no operation ever decrements a counter. -/
theorem counters_independent :
    (∀ (n : ℕ) (c : Counters), runOps (List.replicate n .train) c =
      { c with trainStep := c.trainStep + n }) ∧
    (∀ c : Counters, stepCounters (.predictOp false) c = c) ∧
    (∀ c : Counters, stepCounters (.predictOp true) c =
      { c with predictStep := c.predictStep + 1 }) ∧
    (∀ (op : PPOOp) (c : Counters), op ≠ .train →
      (stepCounters op c).trainStep = c.trainStep) ∧
    (∀ (op : PPOOp) (c : Counters), op ≠ .predictOp true →
      (stepCounters op c).predictStep = c.predictStep) ∧
    (∀ (op : PPOOp) (c : Counters), op ≠ .writeEpisodicSummaries →
      (stepCounters op c).episode = c.episode) ∧
    (∀ (op : PPOOp) (c : Counters), c.trainStep ≤ (stepCounters op c).trainStep ∧
      c.predictStep ≤ (stepCounters op c).predictStep ∧
      c.episode ≤ (stepCounters op c).episode) := by
  refine ⟨?_, ?_, ?_, ?_, ?_, ?_, ?_⟩
  · intro n
    induction n with
    | zero => intro c; simp [runOps]
    | succ m ih =>
      intro c
      have hstep : runOps (List.replicate (m + 1) .train) c =
          runOps (List.replicate m .train) (stepCounters .train c) := by
        simp [runOps, List.replicate_succ]
      rw [hstep, ih]
      cases c
      simp [stepCounters]
      omega
  · intro c; simp [stepCounters]
  · intro c; simp [stepCounters]
  · intro op c hop
    cases op with
    | train => exact absurd rfl hop
    | predictOp w => cases w <;> simp [stepCounters]
    | writeEpisodicSummaries => simp [stepCounters]
    | updateOldPolicy => simp [stepCounters]
    | save => simp [stepCounters]
  · intro op c hop
    cases op with
    | train => simp [stepCounters]
    | predictOp w =>
      cases w
      · simp [stepCounters]
      · exact absurd rfl hop
    | writeEpisodicSummaries => simp [stepCounters]
    | updateOldPolicy => simp [stepCounters]
    | save => simp [stepCounters]
  · intro op c hop
    cases op with
    | train => simp [stepCounters]
    | predictOp w => cases w <;> simp [stepCounters]
    | writeEpisodicSummaries => exact absurd rfl hop
    | updateOldPolicy => simp [stepCounters]
    | save => simp [stepCounters]
  · intro op c
    cases op with
    | train => simp [stepCounters]
    | predictOp w => cases w <;> simp [stepCounters]
    | writeEpisodicSummaries => simp [stepCounters]
    | updateOldPolicy => simp [stepCounters]
    | save => simp [stepCounters]

/-- Witness for C5 at concrete counter states. -/
theorem counters_independent_witness :
    runOps (List.replicate 3 .train) ⟨0, 5, 7⟩ = ⟨3, 5, 7⟩ ∧
    stepCounters (.predictOp false) ⟨1, 2, 3⟩ = ⟨1, 2, 3⟩ ∧
    stepCounters (.predictOp true) ⟨1, 2, 3⟩ = ⟨1, 3, 3⟩ ∧
    (stepCounters .save ⟨1, 2, 3⟩).trainStep = 1 ∧
    (stepCounters .train ⟨1, 2, 3⟩).predictStep = 2 ∧
    (stepCounters .train ⟨1, 2, 3⟩).episode = 3 ∧
    3 ≤ (stepCounters .writeEpisodicSummaries ⟨1, 2, 3⟩).episode := by
  obtain ⟨h1, h2, h3, h4, h5, h6, h7⟩ := counters_independent
  exact ⟨by simpa using h1 3 ⟨0, 5, 7⟩, h2 ⟨1, 2, 3⟩, by simpa using h3 ⟨1, 2, 3⟩,
    h4 .save ⟨1, 2, 3⟩ (by decide), h5 .train ⟨1, 2, 3⟩ (by decide),
    h6 .train ⟨1, 2, 3⟩ (by decide), (h7 .writeEpisodicSummaries ⟨1, 2, 3⟩).2.2⟩

/-- C6 (amended): `load_latest_checkpoint` returns `True` when a checkpoint
is found and restores, the boolean `False` when a checkpoint is found but
restore raises (the exception is caught, never propagated), and `None` — a
falsy value but not the boolean `False` — when no checkpoint exists. -/
theorem load_latest_checkpoint_contract (restore : String → Except String Unit) :
    load_latest_checkpoint none restore = none ∧
    (∀ ckpt, restore ckpt = .ok () → load_latest_checkpoint (some ckpt) restore = some true) ∧
    (∀ ckpt e, restore ckpt = .error e →
      load_latest_checkpoint (some ckpt) restore = some false) := by
  refine ⟨rfl, ?_, ?_⟩
  · intro ckpt h
    simp [load_latest_checkpoint, h]
  · intro ckpt e h
    simp [load_latest_checkpoint, h]

/-- Witness for C6 (amended) with a concrete restore action. -/
theorem load_latest_checkpoint_contract_witness :
    load_latest_checkpoint none restoreEx = none ∧
    load_latest_checkpoint (some "good") restoreEx = some true ∧
    load_latest_checkpoint (some "bad") restoreEx = some false :=
  ⟨(load_latest_checkpoint_contract restoreEx).1,
   (load_latest_checkpoint_contract restoreEx).2.1 "good" (by simp [restoreEx]),
   (load_latest_checkpoint_contract restoreEx).2.2 "bad" "corrupt" (by simp [restoreEx])⟩

/-- C6 counterexample: with no checkpoint in the directory the call does
not return the boolean `False` — it returns `None` (the `if` has no `else`
branch, so Python falls off the end of the function). -/
theorem load_latest_checkpoint_none_counterexample :
    load_latest_checkpoint none (fun _ => .ok ()) = none ∧
    load_latest_checkpoint none (fun _ => .ok ()) ≠ some false :=
  ⟨rfl, by simp [load_latest_checkpoint]⟩

/-- C7 (amended): `PolicyGraph.__init__` performs no action-space
validation: construction succeeds for every action space, degenerate or
not, and never raises a configuration error. -/
theorem policyGraphInit_never_raises (space : ActionSpaceBox) :
    (∃ g, policyGraphInit space = .ok g ∧ g.numActions = space.low.length) ∧
    ∀ e, policyGraphInit space ≠ .error e := by
  refine ⟨⟨_, rfl, rfl⟩, ?_⟩
  intro e h
  cases h

/-- C7 counterexample: a degenerate action space — one dimension with
lower bound 2 ≥ upper bound 1 — on which construction nevertheless
proceeds and returns a graph instead of raising. -/
theorem policyGraphInit_degenerate_counterexample :
    degenerateActionSpace ⟨[2], [1]⟩ = true ∧
    policyGraphInit ⟨[2], [1]⟩ = .ok ⟨1, [2], [1]⟩ := by
  constructor
  · decide
  · rfl

end CarlaPPO

namespace CarlaPPO

/-- C9: `predict()` wraps a single-example (non-2-d) input into a batch of
one, inferring the batch dimension from the shape arity, and the return
shape follows the resulting batch size: a resulting batch of one returns
one un-batched (action, value) pair, while a 2-d input with K > 1 rows
returns K-length batched outputs preserving input order. -/
theorem predict_batch_contract (f g : NpArray → ℚ) :
    (∀ x : NpArray, ndim x ≠ 2 →
      normalizeInput x = .arr [x] ∧ predict f g x = .single (f x) (g x)) ∧
    (∀ rows : List NpArray, ndim (.arr rows) = 2 → 1 < rows.length →
      predict f g (.arr rows) = .batched (rows.map f) (rows.map g)) := by
  constructor
  · intro x hx
    have hn : normalizeInput x = .arr [x] := by simp [normalizeInput, hx]
    exact ⟨hn, by simp [predict, hn, firstAxis]⟩
  · intro rows h2 hlen
    have hn : normalizeInput (.arr rows) = .arr rows := by simp [normalizeInput, h2]
    match rows, hlen with
    | a :: b :: t, _ => simp [predict, hn, firstAxis]

/-- Witness for C9: a 1-d single example is wrapped and returned un-batched;
a 2-d two-row input returns two-element outputs in order. -/
theorem predict_batch_contract_witness :
    (normalizeInput exSingle = .arr [exSingle] ∧
      predict fEx gEx exSingle = .single 5 7) ∧
    predict fEx gEx (.arr exRows) = .batched [5, 5] [7, 7] := by
  have h := predict_batch_contract fEx gEx
  refine ⟨?_, ?_⟩
  · have h1 := h.1 exSingle (by simp [exSingle, ndim])
    exact ⟨h1.1, by simpa [fEx, gEx] using h1.2⟩
  · have h2 := h.2 exRows (by simp [exRows, ndim]) (by simp [exRows])
    simpa [exRows, fEx, gEx] using h2

/-- C10: the batch normalization wraps its input exactly when the array is
not 2-dimensional, so any non-2-d input — including a 3-d single image or
the 4-d image batch the engine's placeholder expects — is treated as one
single example: it gains a leading batch dimension and the call returns
the un-batched single pair. -/
theorem normalizeInput_wraps_non_2d (x : NpArray) (h : ndim x ≠ 2) :
    normalizeInput x = .arr [x] ∧ ndim (normalizeInput x) = ndim x + 1 ∧
    ∀ f g : NpArray → ℚ, (predict f g x).isSingle = true := by
  have hn : normalizeInput x = .arr [x] := by simp [normalizeInput, h]
  refine ⟨hn, ?_, ?_⟩
  · rw [hn]
    show 1 + ndim x = ndim x + 1
    omega
  · intro f g
    simp [predict, hn, firstAxis, PredictResult.isSingle]

/-- Witness for C10 at the 4-d image batch: it is wrapped into a 5-d
batch-of-one and treated as a single example. -/
theorem normalizeInput_wraps_non_2d_witness :
    normalizeInput ex4DBatch = .arr [ex4DBatch] ∧
    ndim (normalizeInput ex4DBatch) = 5 ∧
    (predict fEx gEx ex4DBatch).isSingle = true := by
  have h := normalizeInput_wraps_non_2d ex4DBatch (by simp [ex4DBatch, ndim])
  refine ⟨h.1, ?_, h.2.2 fEx gEx⟩
  rw [h.2.1]
  simp [ex4DBatch, ndim]

end CarlaPPO

namespace CarlaPPO

theorem startsWithChars_iff : ∀ (p cs : List Char),
    startsWithChars p cs = true ↔ ∃ r, cs = p ++ r
  | [], cs => by simp [startsWithChars]
  | x :: ps, [] => by simp [startsWithChars]
  | x :: ps, c :: cs => by
    by_cases h : x = c
    · subst h
      have hstep : startsWithChars (x :: ps) (x :: cs) = startsWithChars ps cs := by
        simp [startsWithChars]
      rw [hstep, startsWithChars_iff ps cs]
      constructor
      · rintro ⟨r, rfl⟩
        exact ⟨r, rfl⟩
      · rintro ⟨r, hr⟩
        rw [List.cons_append] at hr
        injection hr with _ h2
        exact ⟨r, h2⟩
    · constructor
      · intro hs
        exfalso
        simp [startsWithChars, h] at hs
      · rintro ⟨r, hr⟩
        exfalso
        rw [List.cons_append] at hr
        injection hr with h1 _
        exact h h1.symm

theorem scopes_not_both (n : String) :
    ¬(matchesCurrentScope n = true ∧ matchesOldScope n = true) := by
  rintro ⟨hc, ho⟩
  unfold matchesOldScope at ho
  obtain ⟨ho1, _⟩ := Bool.and_eq_true_iff.mp ho
  obtain ⟨r, hr⟩ := (startsWithChars_iff _ _).mp ho1
  unfold matchesCurrentScope at hc
  obtain ⟨_, hc2⟩ := Bool.and_eq_true_iff.mp hc
  have hdrop : n.toList.drop ("policy_".toList.length) = 'o' :: 'l' :: 'd' :: '_' :: r := by
    rw [hr]
    rfl
  rw [hdrop] at hc2
  simp only [digitsThenSlash] at hc2
  rw [show ('o'.isDigit) = false from by decide] at hc2
  simp at hc2

theorem old_imp_not_current {n : String} (h : matchesOldScope n = true) :
    matchesCurrentScope n = false := by
  cases hc : matchesCurrentScope n
  · rfl
  · exact absurd ⟨hc, h⟩ (scopes_not_both n)

theorem lookupVar_map (F : TFVariable → TFVariable) (hF : ∀ v, (F v).name = v.name) :
    ∀ (store : List TFVariable) (n : String),
      lookupVar n (store.map F) =
        (store.find? (fun v => v.name == n)).map (fun v => (F v).val)
  | [], n => rfl
  | v :: vs, n => by
    by_cases h : (v.name == n) = true
    · simp [lookupVar, List.find?, hF, h]
    · have hmain := lookupVar_map F hF vs n
      simp only [List.map_cons, lookupVar, List.find?, hF, h] at hmain ⊢
      exact hmain

theorem find?_name_of_nodup :
    ∀ {store : List TFVariable}, (store.map (fun v => v.name)).Nodup →
      ∀ {v : TFVariable}, v ∈ store →
        store.find? (fun w => w.name == v.name) = some v := by
  intro store
  induction store with
  | nil => intro _ v hv; cases hv
  | cons w ws ih =>
    intro hnd v hv
    rw [List.map_cons, List.nodup_cons] at hnd
    rcases List.mem_cons.mp hv with rfl | hmem
    · simp [List.find?]
    · have hne : (w.name == v.name) = false := by
        refine beq_eq_false_iff_ne.mpr (fun he => hnd.1 ?_)
        rw [he]
        exact List.mem_map_of_mem (fun x => x.name) hmem
      simp only [List.find?, hne]
      exact ih hnd.2 hmem

theorem zip_find_pair :
    ∀ (dst src : List TFVariable), (dst.map (fun v => v.name)).Nodup →
      ∀ (i : ℕ) (h1 : i < dst.length) (h2 : i < src.length),
        (List.zip dst src).find? (fun p => p.1.name == (dst.get ⟨i, h1⟩).name) =
          some (dst.get ⟨i, h1⟩, src.get ⟨i, h2⟩)
  | [], _, _, i, h1, _ => absurd h1 (by simp)
  | _ :: _, [], _, i, _, h2 => absurd h2 (by simp)
  | d :: dt, s :: st, hnd, 0, h1, h2 => by
    simp [List.find?]
  | d :: dt, s :: st, hnd, (i+1), h1, h2 => by
    rw [List.map_cons, List.nodup_cons] at hnd
    have h1t : i < dt.length := by simpa using h1
    have h2t : i < st.length := by simpa using h2
    have hget : (d :: dt).get ⟨i + 1, h1⟩ = dt.get ⟨i, h1t⟩ := rfl
    have hmem : dt.get ⟨i, h1t⟩ ∈ dt := List.get_mem dt i h1t
    have hne : (d.name == (dt.get ⟨i, h1t⟩).name) = false := by
      refine beq_eq_false_iff_ne.mpr (fun he => hnd.1 ?_)
      rw [he]
      exact List.mem_map_of_mem (fun x => x.name) hmem
    rw [hget, List.zip_cons_cons]
    simp only [List.find?, hne]
    have := zip_find_pair dt st hnd.2 i h1t h2t
    simpa using this

theorem assigns_none (store : List TFVariable) (n : String)
    (h : matchesOldScope n = false) :
    (List.zip (getCollection matchesOldScope store)
      (getCollection matchesCurrentScope store)).find?
      (fun p => p.1.name == n) = none := by
  rw [List.find?_eq_none]
  intro p hp
  have hmem := (List.of_mem_zip hp).1
  have hold : matchesOldScope p.1.name = true := (List.mem_filter.mp hmem).2
  intro heq
  have : p.1.name = n := eq_of_beq heq
  rw [this] at hold
  rw [hold] at h
  cases h

end CarlaPPO

namespace CarlaPPO

/-- C4: the gradient-descent step of `train()` mutates only variables in
the current-policy scopes `policy_<i>/`; variables in the old-policy
scopes `policy_old_<i>/` (and any variable outside the current scopes) are
left unchanged by the step, and are changed only by `update_old_policy()`,
which overwrites each old variable wholesale with the value of the
positionally (shape-)matched current variable, leaving non-old variables
unchanged. -/
theorem train_and_sync_param_frame (g : String → ℚ → ℚ) (store : List TFVariable)
    (hnd : (store.map (fun v => v.name)).Nodup) :
    (∀ n, matchesCurrentScope n = false →
      lookupVar n (applyGradStep g store) = lookupVar n store) ∧
    (∀ n, matchesOldScope n = true →
      lookupVar n (applyGradStep g store) = lookupVar n store) ∧
    (∀ n, matchesOldScope n = false →
      lookupVar n (updateOldPolicy store) = lookupVar n store) ∧
    (∀ (i : ℕ) (h1 : i < (getCollection matchesOldScope store).length)
      (h2 : i < (getCollection matchesCurrentScope store).length),
      lookupVar ((getCollection matchesOldScope store).get ⟨i, h1⟩).name
          (updateOldPolicy store) =
        some ((getCollection matchesCurrentScope store).get ⟨i, h2⟩).val) := by
  have hFgrad : ∀ v : TFVariable,
      ((if matchesCurrentScope v.name then (⟨v.name, g v.name v.val⟩ : TFVariable)
        else v)).name = v.name := by
    intro v
    by_cases h : matchesCurrentScope v.name <;> simp [h]
  have hFold : ∀ v : TFVariable,
      ((match (List.zip (getCollection matchesOldScope store)
          (getCollection matchesCurrentScope store)).find?
          (fun (p : TFVariable × TFVariable) => p.1.name == v.name) with
        | some p => (⟨v.name, p.2.val⟩ : TFVariable)
        | none => v)).name = v.name := by
    intro v
    cases (List.zip (getCollection matchesOldScope store)
      (getCollection matchesCurrentScope store)).find?
      (fun (p : TFVariable × TFVariable) => p.1.name == v.name) <;> rfl
  have hgrad : ∀ n, lookupVar n (applyGradStep g store) =
      (store.find? (fun v => v.name == n)).map
        (fun v => (if matchesCurrentScope v.name then
          (⟨v.name, g v.name v.val⟩ : TFVariable) else v).val) :=
    fun n => lookupVar_map _ hFgrad store n
  have hupd : ∀ n, lookupVar n (updateOldPolicy store) =
      (store.find? (fun v => v.name == n)).map
        (fun v => (match (List.zip (getCollection matchesOldScope store)
            (getCollection matchesCurrentScope store)).find?
            (fun (p : TFVariable × TFVariable) => p.1.name == v.name) with
          | some p => (⟨v.name, p.2.val⟩ : TFVariable)
          | none => v).val) :=
    fun n => lookupVar_map _ hFold store n
  refine ⟨?_, ?_, ?_, ?_⟩
  · intro n h
    rw [hgrad n]
    unfold lookupVar
    cases hfind : store.find? (fun v => v.name == n) with
    | none => rfl
    | some w =>
      have hbeq : (w.name == n) = true := by simpa using List.find?_some hfind
      have hw : w.name = n := eq_of_beq hbeq
      simp only [Option.map_some']
      rw [hw, h]
      simp
  · intro n h
    rw [hgrad n]
    unfold lookupVar
    cases hfind : store.find? (fun v => v.name == n) with
    | none => rfl
    | some w =>
      have hbeq : (w.name == n) = true := by simpa using List.find?_some hfind
      have hw : w.name = n := eq_of_beq hbeq
      simp only [Option.map_some']
      rw [hw, old_imp_not_current h]
      simp
  · intro n h
    rw [hupd n]
    unfold lookupVar
    cases hfind : store.find? (fun v => v.name == n) with
    | none => rfl
    | some w =>
      have hbeq : (w.name == n) = true := by simpa using List.find?_some hfind
      have hw : w.name = n := eq_of_beq hbeq
      simp only [Option.map_some']
      rw [hw, assigns_none store n h]
  · intro i h1 h2
    have hdnd : ((getCollection matchesOldScope store).map (fun v => v.name)).Nodup := by
      refine List.Nodup.sublist (List.Sublist.map _ ?_) hnd
      exact List.filter_sublist store
    have hmem : (getCollection matchesOldScope store).get ⟨i, h1⟩ ∈ store :=
      (List.mem_filter.mp (List.get_mem _ i h1)).1
    have hfind := find?_name_of_nodup hnd hmem
    rw [hupd _, hfind]
    have hpair := zip_find_pair (getCollection matchesOldScope store)
      (getCollection matchesCurrentScope store) hdnd i h1 h2
    simp only [Option.map_some']
    rw [hpair]

/-- Witness for C4 on a concrete two-variable store: the old parameter is
untouched by a gradient step, the current parameter is untouched by
`update_old_policy`, and `update_old_policy` copies the current value onto
the positionally matched old variable. -/
theorem train_and_sync_param_frame_witness :
    lookupVar "policy_old_0/w" (applyGradStep gradEx storeEx) =
      lookupVar "policy_old_0/w" storeEx ∧
    lookupVar "policy_0/w" (updateOldPolicy storeEx) =
      lookupVar "policy_0/w" storeEx ∧
    lookupVar ((getCollection matchesOldScope storeEx).get ⟨0, by decide⟩).name
        (updateOldPolicy storeEx) =
      some ((getCollection matchesCurrentScope storeEx).get ⟨0, by decide⟩).val := by
  obtain ⟨hA, hB, hC, hD⟩ := train_and_sync_param_frame gradEx storeEx (by decide)
  exact ⟨hB "policy_old_0/w" (by decide), hC "policy_0/w" (by decide),
    hD 0 (by decide) (by decide)⟩

end CarlaPPO

namespace CarlaPPO

theorem tanh_bounds (x : ℝ) : -1 < Real.tanh x ∧ Real.tanh x < 1 := by
  have hc : 0 < Real.cosh x := Real.cosh_pos x
  have hsub := Real.cosh_sub_sinh x
  have hadd := Real.cosh_add_sinh x
  have he1 := Real.exp_pos (-x)
  have he2 := Real.exp_pos x
  rw [Real.tanh_eq_sinh_div_cosh]
  constructor
  · rw [lt_div_iff₀ hc]
    nlinarith
  · rw [div_lt_one hc]
    nlinarith

theorem actionMeanComponent_mem (lo hi pre : ℝ) (h : lo ≤ hi) :
    lo ≤ actionMeanComponent lo hi pre ∧ actionMeanComponent lo hi pre ≤ hi := by
  obtain ⟨ht1, ht2⟩ := tanh_bounds pre
  unfold actionMeanComponent
  constructor <;> nlinarith

/-- C3: for every batch of observations and taken actions, when the
current and old PolicyGraph parameters are equal (as immediately after
`update_old_policy()`), the probability ratio
`exp(current.log_prob - old.log_prob)` equals 1 for every sample. -/
theorem probRatio_one_when_params_equal (cur old : PolicyParams)
    (batch : List (List ℝ × List ℝ)) (h : cur = old) :
    ∀ x ∈ probRatioBatch cur old batch, x = 1 := by
  subst h
  intro x hx
  obtain ⟨sa, _, rfl⟩ := List.mem_map.mp hx
  unfold probRatio
  rw [sub_self, Real.exp_zero]

/-- Witness for C3 at concrete equal parameters and a one-sample batch. -/
theorem probRatio_one_when_params_equal_witness :
    probRatio ppEx ppEx [0] [0] = 1 :=
  probRatio_one_when_params_equal ppEx ppEx [([0], [0])] rfl _
    (by simp [probRatioBatch])

/-- C8: for every valid action space (lower bound strictly below the upper
bound in each dimension), every pre-activation (hence arbitrary
observations and network weights) and every dimension, the rescaled
`action_mean` component lies within `[action_min, action_max]`, because
the final `tanh` output in [-1, 1] is affinely rescaled into the bounds. -/
theorem actionMean_within_bounds (lows his pres : List ℝ) (i : ℕ)
    (h1 : i < lows.length) (h2 : i < his.length) (h3 : i < pres.length)
    (h4 : i < (actionMeanVec lows his pres).length)
    (hb : lows.get ⟨i, h1⟩ < his.get ⟨i, h2⟩) :
    lows.get ⟨i, h1⟩ ≤ (actionMeanVec lows his pres).get ⟨i, h4⟩ ∧
    (actionMeanVec lows his pres).get ⟨i, h4⟩ ≤ his.get ⟨i, h2⟩ := by
  have hval : (actionMeanVec lows his pres).get ⟨i, h4⟩ =
      actionMeanComponent (lows.get ⟨i, h1⟩) (his.get ⟨i, h2⟩) (pres.get ⟨i, h3⟩) := by
    simp [actionMeanVec, List.get_eq_getElem, List.getElem_zipWith, List.getElem_zip]
  rw [hval]
  exact actionMeanComponent_mem _ _ _ hb.le

/-- Witness for C8 with bounds [-1, 1] and pre-activation 0. -/
theorem actionMean_within_bounds_witness :
    (-1 : ℝ) ≤ (actionMeanVec [-1] [1] [0]).get ⟨0, by simp [actionMeanVec]⟩ ∧
    (actionMeanVec [-1] [1] [0]).get ⟨0, by simp [actionMeanVec]⟩ ≤ 1 := by
  have h := actionMean_within_bounds [-1] [1] [0] 0 (by simp) (by simp) (by simp)
    (by simp [actionMeanVec]) (show ((-1 : ℝ)) < 1 by norm_num)
  exact h

end CarlaPPO
